import Mathlib

/-!
Verification of the OppWorks procurement application (src/app.py):
the pipeline status engine, the document version ledger, the stage-update
operation, the file-collision retry loop, and the (spec-described)
table reconciliation engine.

Python dictionaries whose values are date strings or None are embedded as
functions `String → Option String`; Python truthiness of such a value
(`if row.get(col):`) is `present` below: `none` and `some ""` are falsy,
any other string is truthy.  SQL tables are embedded as Lean lists of
records; an SQL UPDATE with a WHERE clause is a `List.map` guarded by the
WHERE predicate.
-/

namespace OppWorks

/-- The canonical milestone (column, label) sequence, from `STATUS_ORDER`
in src/app.py. -/
def STATUS_ORDER : List (String × String) :=
  [("rfq_sent_date", "RFQ Sent"),
   ("quote_received_date", "Quote Received"),
   ("requisition_requested_date", "Requisition Requested"),
   ("order_sent_date", "Order Sent"),
   ("delivered_date", "Delivered"),
   ("invoice_signed_date", "Invoice Signed"),
   ("receipting_sent_date", "Sent for Receipting")]

/-- The seven canonical milestone column names, in canonical order. -/
def MILESTONE_COLS : List String := STATUS_ORDER.map Prod.fst

/-- Python truthiness of a milestone value: `row.get(col)` is truthy
exactly when the value is a non-empty string. -/
def present : Option String → Bool
  | none => false
  | some s => s ≠ ""

/-- `derive_status` from src/app.py: start from "Not Started" and walk
`STATUS_ORDER` in order, remembering the label of every milestone whose
value is truthy; the last one remembered wins. -/
def derive_status (row : String → Option String) : String :=
  STATUS_ORDER.foldl (fun last cl => if present (row cl.1) then cl.2 else last)
    "Not Started"

/-- Spec-worded reformulation (for comparison with `derive_status`): the
label of the highest-canonical-index key whose value is present, or
"Not Started" if none is present. -/
def deriveStatusSpec (row : String → Option String) : String :=
  match STATUS_ORDER.reverse.find? (fun cl => present (row cl.1)) with
  | some cl => cl.2
  | none => "Not Started"

/-- The status label paired with a milestone column in `STATUS_ORDER`. -/
def labelOf (col : String) : String :=
  ((STATUS_ORDER.find? (fun cl => cl.1 == col)).map Prod.snd).getD ""

/-- A calendar date as Python's `datetime.date` supplies it. -/
structure PyDate where
  year : Nat
  month : Nat
  day : Nat
deriving DecidableEq

/-- Full month names, as produced by `strftime("%B")`. -/
def MONTHS : List String :=
  ["January", "February", "March", "April", "May", "June", "July",
   "August", "September", "October", "November", "December"]

/-- Zero-padded two-digit rendering, as `strftime("%d")` produces. -/
def pad2 (n : Nat) : String :=
  if n < 10 then "0" ++ toString n else toString n

/-- `month_text_date` from src/app.py: `dt.strftime("%d %B %Y")`. -/
def month_text_date (d : PyDate) : String :=
  pad2 d.day ++ " " ++ MONTHS.getD (d.month - 1) "" ++ " " ++ toString d.year

/-- A row of the `purchases` table from src/app.py.  The REAL columns
(`amount_excl_vat`, `vat_percent`) carry inert numeric values never
computed with by the modelled operations, embedded as `Int`. -/
structure Purchase where
  id : Nat
  project_id : Nat
  supplier_id : Nat
  item_description : String
  category : String
  amount_excl_vat : Int
  vat_percent : Int
  payment_terms : String
  rfq_sent_date : Option String
  quote_received_date : Option String
  requisition_requested_date : Option String
  order_sent_date : Option String
  delivered_date : Option String
  invoice_signed_date : Option String
  receipting_sent_date : Option String
  status : String
  created_at : String
deriving DecidableEq

/-- The milestone dictionary of a purchase row, as a lookup function:
the dictionary `get_purchase_dict` builds from the seven milestone
columns (`.get` yields `none` off those keys). -/
def milestoneGet (p : Purchase) : String → Option String := fun k =>
  if k = "rfq_sent_date" then p.rfq_sent_date
  else if k = "quote_received_date" then p.quote_received_date
  else if k = "requisition_requested_date" then p.requisition_requested_date
  else if k = "order_sent_date" then p.order_sent_date
  else if k = "delivered_date" then p.delivered_date
  else if k = "invoice_signed_date" then p.invoice_signed_date
  else if k = "receipting_sent_date" then p.receipting_sent_date
  else none

/-- `get_purchase_dict` from src/app.py over a purchases table: the
milestone dictionary of the row with the given id, or the empty
dictionary when no row matches. -/
def get_purchase_dict (table : List Purchase) (pid : Nat) :
    String → Option String :=
  match table.find? (fun p => p.id == pid) with
  | some p => milestoneGet p
  | none => fun _ => none

/-- Writing one milestone column of a purchase row, as the interpolated
column name in `UPDATE purchases SET {col}=?` does; callers only pass
the seven milestone columns. -/
def setCol (p : Purchase) (col : String) (v : Option String) : Purchase :=
  if col = "rfq_sent_date" then { p with rfq_sent_date := v }
  else if col = "quote_received_date" then { p with quote_received_date := v }
  else if col = "requisition_requested_date" then { p with requisition_requested_date := v }
  else if col = "order_sent_date" then { p with order_sent_date := v }
  else if col = "delivered_date" then { p with delivered_date := v }
  else if col = "invoice_signed_date" then { p with invoice_signed_date := v }
  else if col = "receipting_sent_date" then { p with receipting_sent_date := v }
  else p

/-- `update_stage_date` from src/app.py: read the purchase's milestone
dictionary, set the given column to the formatted date, derive the new
status, run `UPDATE purchases SET {col}=?, status=? WHERE id=?`, and
return the new status. -/
def update_stage_date (table : List Purchase) (pid : Nat) (col : String)
    (dt : PyDate) : List Purchase × String :=
  let row := get_purchase_dict table pid
  let row' := fun k => if k = col then some (month_text_date dt) else row k
  let status := derive_status row'
  (table.map (fun p =>
      if p.id = pid then { setCol p col (some (month_text_date dt)) with status := status }
      else p),
   status)

/-- The purchase-creation form handler from src/app.py (Purchases page):
format each chosen date (or keep None), derive the status over those
seven values, and INSERT the new purchase row carrying exactly those
milestone values and that status. -/
def add_purchase (table : List Purchase) (newId projId suppId : Nat)
    (descr cat : String) (amt vat : Int) (terms : String)
    (rfq quote req order delivered invSigned recpt : Option PyDate)
    (today : PyDate) : List Purchase :=
  let row : String → Option String := fun k =>
    if k = "rfq_sent_date" then rfq.map month_text_date
    else if k = "quote_received_date" then quote.map month_text_date
    else if k = "requisition_requested_date" then req.map month_text_date
    else if k = "order_sent_date" then order.map month_text_date
    else if k = "delivered_date" then delivered.map month_text_date
    else if k = "invoice_signed_date" then invSigned.map month_text_date
    else if k = "receipting_sent_date" then recpt.map month_text_date
    else none
  let status := derive_status row
  table ++ [{ id := newId, project_id := projId, supplier_id := suppId,
              item_description := descr, category := cat,
              amount_excl_vat := amt, vat_percent := vat,
              payment_terms := terms,
              rfq_sent_date := rfq.map month_text_date,
              quote_received_date := quote.map month_text_date,
              requisition_requested_date := req.map month_text_date,
              order_sent_date := order.map month_text_date,
              delivered_date := delivered.map month_text_date,
              invoice_signed_date := invSigned.map month_text_date,
              receipting_sent_date := recpt.map month_text_date,
              status := status,
              created_at := month_text_date today }]

/-- The §3 purchase invariant: the stored status is the one derived from
the stored milestone columns. -/
def statusInv (p : Purchase) : Prop :=
  p.status = derive_status (milestoneGet p)

/-- The non-milestone, non-status columns of a purchase row, bundled to
state frame conditions. -/
def frameFields (p : Purchase) :
    Nat × Nat × Nat × String × String × Int × Int × String × String :=
  (p.id, p.project_id, p.supplier_id, p.item_description, p.category,
   p.amount_excl_vat, p.vat_percent, p.payment_terms, p.created_at)

/-- A row of the `documents` table from src/app.py (`is_current`
INTEGER 0/1 embedded as Bool). -/
structure Doc where
  id : Nat
  purchase_id : Nat
  doc_type : String
  filename : String
  saved_path : String
  uploaded_at : String
  version : Nat
  is_current : Bool
deriving DecidableEq

/-- `next_version` from src/app.py:
`SELECT COALESCE(MAX(version),0) ... WHERE purchase_id=? AND doc_type=?`
followed by `(... or 0) + 1`. -/
def next_version (docs : List Doc) (pid : Nat) (dtype : String) : Nat :=
  (((docs.filter (fun d => d.purchase_id == pid && d.doc_type == dtype)).map
      (fun d => d.version)).foldl max 0) + 1

/-- The save-document step of `stage_page` in src/app.py: INSERT the new
document row with `is_current=1` and the version from `next_version`,
then `UPDATE documents SET is_current=0 WHERE purchase_id=? AND
doc_type=? AND id<>?` for the freshly inserted id. -/
def record_document (docs : List Doc) (pid : Nat) (dtype : String)
    (newId : Nat) (fname fpath today : String) : List Doc :=
  let v := next_version docs pid dtype
  let docs1 := docs ++
    [{ id := newId, purchase_id := pid, doc_type := dtype, filename := fname,
       saved_path := fpath, uploaded_at := today, version := v,
       is_current := true }]
  docs1.map (fun d =>
    if d.purchase_id = pid ∧ d.doc_type = dtype ∧ d.id ≠ newId
    then { d with is_current := false } else d)

/-- `os.path.splitext`-style index of the last dot of a bare filename. -/
def splitextIdx : List Char → Option Nat
  | [] => none
  | c :: cs =>
    match splitextIdx cs with
    | some i => some (i + 1)
    | none => if c = '.' then some 0 else none

/-- `os.path.splitext` on a bare filename (no directory separator, as the
upload widget supplies): split at the last dot unless every character
before it is also a dot (leading dots carry no extension). -/
def splitext (s : String) : String × String :=
  match splitextIdx s.data with
  | none => (s, "")
  | some d =>
    if (s.data.take d).any (fun c => c ≠ '.') then
      (String.mk (s.data.take d), String.mk (s.data.drop d))
    else (s, "")

/-- `versioned_name` from src/app.py: insert `_v{v}` before the
extension. -/
def versioned_name (filename : String) (v : Nat) : String :=
  (splitext filename).1 ++ "_v" ++ toString v ++ (splitext filename).2

/-- One turn of `save_file`'s collision loop in src/app.py: append the
numeric disambiguator `_{i}` before the extension of the current
candidate name. -/
def collide_rename (fname : String) (i : Nat) : String :=
  (splitext fname).1 ++ "_" ++ toString i ++ (splitext fname).2

/-- The `while os.path.exists(dest)` loop of `save_file` in src/app.py
over the set of names already present in the destination folder; the
fuel argument bounds the iterations executed. -/
def save_file_loop : Nat → List String → String → Nat → Option String
  | 0, _, _, _ => none
  | fuel + 1, existing, fname, i =>
    if fname ∈ existing then
      save_file_loop fuel existing (collide_rename fname i) (i + 1)
    else some fname

/-- `save_file` from src/app.py, returning the resolved filename: start
from the versioned name and retry with numeric disambiguators; a fuel of
`existing.length + 1` is always sufficient (proved below). -/
def save_file (existing : List String) (filename : String) (v : Nat) :
    Option String :=
  save_file_loop (existing.length + 1) existing (versioned_name filename v) 1

/-- Modelled from the spec: the inventory row of §3 of the specification.
The inventory/stock-take editor application is not part of src/ (only the
procurement app is); the row identity is the reserved hidden column, ""
meaning absent, and the numeric cells (quantity, min/max levels, unit
cost) are embedded as `Int`. -/
structure InvRow where
  rid : String
  deleteFlag : Bool
  itemCode : String
  descr : String
  category : String
  uom : String
  location : String
  qty : Int
  minLevel : Int
  maxLevel : Int
  cost : Int
  extId : String
deriving DecidableEq

/-- Modelled from the spec: whitespace trimming of a string cell. -/
def trimStr (s : String) : String :=
  String.mk
    ((s.data.dropWhile Char.isWhitespace).reverse.dropWhile
      Char.isWhitespace).reverse

/-- Modelled from the spec: §4.3 step 4 normalization — string columns
trimmed, numeric lower bounds enforced by clamping at 0. -/
def normalizeRow (r : InvRow) : InvRow :=
  { r with itemCode := trimStr r.itemCode, descr := trimStr r.descr,
           category := trimStr r.category, uom := trimStr r.uom,
           location := trimStr r.location, extId := trimStr r.extId,
           qty := max r.qty 0, minLevel := max r.minLevel 0,
           maxLevel := max r.maxLevel 0, cost := max r.cost 0 }

/-- Modelled from the spec: §4.3 step 2 — overwrite a master row with the
last edited row carrying the same identity (last write wins), leave it
unchanged when no edited row matches. -/
def applyUpd (updates : List InvRow) (m : InvRow) : InvRow :=
  updates.foldl (fun acc u => if u.rid = m.rid then u else acc) m

/-- Modelled from the spec: §4.3 step 3 identity generation — draw
candidate identities from the generator, regenerating on collision with
the used set, with fuel bounding the regeneration attempts. -/
def freshId (gen : Nat → String) (used : List String) : Nat → Nat → String
  | n, 0 => gen n
  | n, fuel + 1 => if gen n ∈ used then freshId gen used (n + 1) fuel else gen n

/-- Modelled from the spec: §4.3 step 3 — assign each kept candidate a
freshly generated identity unique against the identities in use. -/
def assignIds (gen : Nat → String) (used : List String) :
    List InvRow → List InvRow
  | [] => []
  | r :: rs =>
    let fid := freshId gen used 0 (used.length + 1)
    { r with rid := fid } :: assignIds gen (fid :: used) rs

/-- Modelled from the spec: `reconcile(master, displayedBefore,
editedView) -> newMaster` of §4.3, steps 1-4 in that exact order
(delete by identity of delete-flagged edited rows; update by identity,
last write wins; insert identity-less candidates that carry a non-blank
key field; normalize).  The algorithm of §4.3 never consults
`displayedBefore`. -/
def reconcile (gen : Nat → String) (master displayedBefore editedView : List InvRow) :
    List InvRow :=
  let delIds := (editedView.filter (fun r => r.deleteFlag && r.rid != "")).map
    (fun r => r.rid)
  let afterDel := master.filter (fun m => !(delIds.contains m.rid))
  let updates := editedView.filter (fun r => r.rid != "" && !r.deleteFlag)
  let afterUpd := afterDel.map (applyUpd updates)
  let candidates := (editedView.filter (fun r => r.rid == "")).filter
    (fun r => trimStr r.itemCode != "" || trimStr r.descr != "")
  let inserted := assignIds gen (afterUpd.map (fun r => r.rid)) candidates
  (afterUpd ++ inserted).map normalizeRow

/-- Concrete purchase used by the witnesses. -/
def pEx : Purchase :=
  { id := 1, project_id := 1, supplier_id := 1, item_description := "steel",
    category := "Goods", amount_excl_vat := 100, vat_percent := 15,
    payment_terms := "30 days",
    rfq_sent_date := some "01 January 2025",
    quote_received_date := none, requisition_requested_date := none,
    order_sent_date := none, delivered_date := none,
    invoice_signed_date := none, receipting_sent_date := none,
    status := "RFQ Sent", created_at := "01 January 2025" }

/-- Concrete date used by the witnesses. -/
def dEx : PyDate := { year := 2025, month := 1, day := 2 }

/-- The concrete purchase `pEx` after the witness stage update. -/
def pEx2 : Purchase :=
  { pEx with quote_received_date := some "02 January 2025",
             status := "Quote Received" }

/-- Concrete documents used by the witnesses (versions 1, 2, 3 for
purchase 7, type "Quote"). -/
def docA : Doc :=
  { id := 1, purchase_id := 7, doc_type := "Quote", filename := "a.pdf",
    saved_path := "p1", uploaded_at := "t", version := 1, is_current := false }

def docB : Doc :=
  { id := 2, purchase_id := 7, doc_type := "Quote", filename := "b.pdf",
    saved_path := "p2", uploaded_at := "t", version := 2, is_current := false }

def docC : Doc :=
  { id := 3, purchase_id := 7, doc_type := "Quote", filename := "c.pdf",
    saved_path := "p3", uploaded_at := "t", version := 3, is_current := true }

/-- Concrete document of another purchase, used by the C9 witness. -/
def docOther : Doc :=
  { id := 4, purchase_id := 8, doc_type := "Invoice", filename := "d.pdf",
    saved_path := "p4", uploaded_at := "t", version := 1, is_current := true }

/-- Concrete inventory rows used by the C7 witness. -/
def rowEx1 : InvRow :=
  { rid := "id-1", deleteFlag := false, itemCode := "A100",
    descr := "bolt", category := "fasteners", uom := "ea",
    location := "W1", qty := 5, minLevel := 0, maxLevel := 10,
    cost := 3, extId := "" }

def rowEx2 : InvRow :=
  { rid := "id-2", deleteFlag := false, itemCode := "B200",
    descr := "nut", category := "fasteners", uom := "ea",
    location := "W2", qty := 7, minLevel := 1, maxLevel := 20,
    cost := 2, extId := "x" }

/-! Theorems. -/

/-- `derive_status` only consults the truthiness of the row at the seven
canonical keys. -/
theorem derive_status_congr (row row' : String → Option String)
    (h : ∀ k, k ∈ MILESTONE_COLS → present (row k) = present (row' k)) :
    derive_status row = derive_status row' := by
  have h1 := h "rfq_sent_date" (by simp [MILESTONE_COLS, STATUS_ORDER])
  have h2 := h "quote_received_date" (by simp [MILESTONE_COLS, STATUS_ORDER])
  have h3 := h "requisition_requested_date" (by simp [MILESTONE_COLS, STATUS_ORDER])
  have h4 := h "order_sent_date" (by simp [MILESTONE_COLS, STATUS_ORDER])
  have h5 := h "delivered_date" (by simp [MILESTONE_COLS, STATUS_ORDER])
  have h6 := h "invoice_signed_date" (by simp [MILESTONE_COLS, STATUS_ORDER])
  have h7 := h "receipting_sent_date" (by simp [MILESTONE_COLS, STATUS_ORDER])
  simp only [derive_status, STATUS_ORDER, List.foldl, h1, h2, h3, h4, h5, h6, h7]

/-- C1. For every milestone mapping, `derive_status` returns the label of
the highest-canonical-index milestone whose value is present ("Not
Started" if none is), and an empty-string value behaves exactly like an
absent value. -/
theorem derive_status_spec_correct (row : String → Option String) :
    derive_status row = deriveStatusSpec row ∧
    ∀ k, row k = some "" →
      derive_status row =
        derive_status (fun k' => if k' = k then none else row k') := by
  constructor
  · simp only [derive_status, deriveStatusSpec, STATUS_ORDER, List.foldl,
      List.reverse, List.reverseAux, List.find?]
    rcases hb1 : present (row "rfq_sent_date") <;>
      rcases hb2 : present (row "quote_received_date") <;>
      rcases hb3 : present (row "requisition_requested_date") <;>
      rcases hb4 : present (row "order_sent_date") <;>
      rcases hb5 : present (row "delivered_date") <;>
      rcases hb6 : present (row "invoice_signed_date") <;>
      rcases hb7 : present (row "receipting_sent_date") <;> simp
  · intro k hk
    apply derive_status_congr
    intro k' _
    by_cases hkk : k' = k
    · subst hkk; simp [hk, present]
    · simp [hkk]

/-- C10. `derive_status` always returns either "Not Started" or one of the
seven canonical stage labels, and entries of the mapping under keys other
than the seven canonical milestone keys never affect the result. -/
theorem derive_status_range_and_frame (row : String → Option String) :
    (derive_status row = "Not Started" ∨
      derive_status row ∈ STATUS_ORDER.map Prod.snd) ∧
    ∀ row' : String → Option String,
      (∀ k, k ∈ MILESTONE_COLS → row k = row' k) →
      derive_status row = derive_status row' := by
  constructor
  · simp only [derive_status, STATUS_ORDER, List.foldl, List.map]
    rcases hb1 : present (row "rfq_sent_date") <;>
      rcases hb2 : present (row "quote_received_date") <;>
      rcases hb3 : present (row "requisition_requested_date") <;>
      rcases hb4 : present (row "order_sent_date") <;>
      rcases hb5 : present (row "delivered_date") <;>
      rcases hb6 : present (row "invoice_signed_date") <;>
      rcases hb7 : present (row "receipting_sent_date") <;> simp
  · intro row' h
    exact derive_status_congr row row' (fun k hk => by rw [h k hk])

/-- Witness for C10 at a concrete mapping: a key outside the canonical
seven does not change the derived status. -/
theorem derive_status_range_and_frame_witness :
    derive_status (fun k => if k = "delivered_date" then some "02 January 2025"
      else if k = "unrelated_key" then some "junk" else none) =
    derive_status (fun k => if k = "delivered_date" then some "02 January 2025"
      else none) :=
  (derive_status_range_and_frame
      (fun k => if k = "delivered_date" then some "02 January 2025"
        else if k = "unrelated_key" then some "junk" else none)).2
    (fun k => if k = "delivered_date" then some "02 January 2025" else none)
    (by intro k hk; fin_cases hk <;> rfl)

/-- Witness for C1 at a concrete mapping: an empty-string milestone is
ignored just like an absent one. -/
theorem derive_status_spec_correct_witness :
    derive_status (fun k => if k = "quote_received_date" then some "" else none) =
    derive_status (fun k' => if k' = "quote_received_date" then none
      else if k' = "quote_received_date" then some "" else none) :=
  (derive_status_spec_correct
      (fun k => if k = "quote_received_date" then some "" else none)).2
    "quote_received_date" (by simp)

theorem month_text_date_ne_empty (d : PyDate) : month_text_date d ≠ "" := by
  intro h
  have hlen : (month_text_date d).length = 0 := by rw [h]; rfl
  have hsp : (" " : String).length = 1 := rfl
  simp only [month_text_date, String.length_append, hsp] at hlen
  omega

theorem setCol_rfq (p : Purchase) (v : Option String) :
    setCol p "rfq_sent_date" v = { p with rfq_sent_date := v } := rfl

theorem setCol_quote (p : Purchase) (v : Option String) :
    setCol p "quote_received_date" v = { p with quote_received_date := v } := by
  rfl

theorem setCol_req (p : Purchase) (v : Option String) :
    setCol p "requisition_requested_date" v =
      { p with requisition_requested_date := v } := by
  rfl

theorem setCol_order (p : Purchase) (v : Option String) :
    setCol p "order_sent_date" v = { p with order_sent_date := v } := by
  rfl

theorem setCol_delivered (p : Purchase) (v : Option String) :
    setCol p "delivered_date" v = { p with delivered_date := v } := by
  rfl

theorem setCol_inv (p : Purchase) (v : Option String) :
    setCol p "invoice_signed_date" v = { p with invoice_signed_date := v } := by
  rfl

theorem setCol_recpt (p : Purchase) (v : Option String) :
    setCol p "receipting_sent_date" v = { p with receipting_sent_date := v } := by
  rfl

theorem milestoneGet_setCol (p : Purchase) (col : String) (v : Option String)
    (hcol : col ∈ MILESTONE_COLS) (k : String) :
    milestoneGet (setCol p col v) k = if k = col then v else milestoneGet p k := by
  simp only [MILESTONE_COLS, STATUS_ORDER, List.map, List.mem_cons,
    List.not_mem_nil, or_false] at hcol
  rcases hcol with rfl | rfl | rfl | rfl | rfl | rfl | rfl
  · rw [setCol_rfq]
    by_cases h : k = "rfq_sent_date"
    · subst h; rfl
    · rw [if_neg h]; simp [milestoneGet, h]
  · rw [setCol_quote]
    by_cases h : k = "quote_received_date"
    · subst h; rfl
    · rw [if_neg h]; simp [milestoneGet, h]
  · rw [setCol_req]
    by_cases h : k = "requisition_requested_date"
    · subst h; rfl
    · rw [if_neg h]; simp [milestoneGet, h]
  · rw [setCol_order]
    by_cases h : k = "order_sent_date"
    · subst h; rfl
    · rw [if_neg h]; simp [milestoneGet, h]
  · rw [setCol_delivered]
    by_cases h : k = "delivered_date"
    · subst h; rfl
    · rw [if_neg h]; simp [milestoneGet, h]
  · rw [setCol_inv]
    by_cases h : k = "invoice_signed_date"
    · subst h; rfl
    · rw [if_neg h]; simp [milestoneGet, h]
  · rw [setCol_recpt]
    by_cases h : k = "receipting_sent_date"
    · subst h; rfl
    · rw [if_neg h]; simp [milestoneGet, h]

theorem frameFields_setCol (p : Purchase) (col : String) (v : Option String) :
    frameFields (setCol p col v) = frameFields p := by
  simp only [setCol]; split_ifs <;> rfl

theorem find_purchase_of_uniq {table : List Purchase} {pid : Nat} {p0 : Purchase}
    (huniq : table.Pairwise (fun a b => a.id ≠ b.id))
    (hmem : p0 ∈ table) (hid : p0.id = pid) :
    table.find? (fun p => p.id == pid) = some p0 := by
  induction table with
  | nil => cases hmem
  | cons q t ih =>
    rcases List.mem_cons.mp hmem with rfl | hmem'
    · have hb : (p0.id == pid) = true := by simp [hid]
      simp [List.find?, hb]
    · have hq : (q.id == pid) = false := by
        simp only [beq_eq_false_iff_ne, ne_eq]
        intro hq
        exact (List.pairwise_cons.mp huniq).1 p0 hmem' (by rw [hq, hid])
      simp only [List.find?, hq]
      exact ih (List.pairwise_cons.mp huniq).2 hmem'

theorem get_purchase_dict_of_uniq {table : List Purchase} {pid : Nat}
    {p0 : Purchase} (huniq : table.Pairwise (fun a b => a.id ≠ b.id))
    (hmem : p0 ∈ table) (hid : p0.id = pid) :
    get_purchase_dict table pid = milestoneGet p0 := by
  simp only [get_purchase_dict, find_purchase_of_uniq huniq hmem hid]

theorem update_stage_date_snd (table : List Purchase) (pid : Nat) (col : String)
    (dt : PyDate) :
    (update_stage_date table pid col dt).2 =
      derive_status (fun k => if k = col then some (month_text_date dt)
        else get_purchase_dict table pid k) := rfl

theorem update_stage_date_fst (table : List Purchase) (pid : Nat) (col : String)
    (dt : PyDate) :
    (update_stage_date table pid col dt).1 =
      table.map (fun p => if p.id = pid
        then { setCol p col (some (month_text_date dt)) with
               status := (update_stage_date table pid col dt).2 }
        else p) := rfl

/-- C4. The §3 purchase invariant — the stored status equals the status
derived from the stored milestone columns — holds for the row the
purchase-creation handler inserts, and is preserved by
`update_stage_date` on a table with unique ids. -/
theorem status_invariant_preserved :
    (∀ (table : List Purchase) (newId projId suppId : Nat)
       (descr cat : String) (amt vat : Int) (terms : String)
       (rfq quote req order delivered invSigned recpt : Option PyDate)
       (today : PyDate),
      (∀ p ∈ table, statusInv p) →
      ∀ p ∈ add_purchase table newId projId suppId descr cat amt vat terms
          rfq quote req order delivered invSigned recpt today, statusInv p) ∧
    (∀ (table : List Purchase) (pid : Nat) (col : String) (dt : PyDate),
      col ∈ MILESTONE_COLS →
      table.Pairwise (fun a b => a.id ≠ b.id) →
      (∀ p ∈ table, statusInv p) →
      ∀ p ∈ (update_stage_date table pid col dt).1, statusInv p) := by
  constructor
  · intro table newId projId suppId descr cat amt vat terms
      rfq quote req order delivered invSigned recpt today hInv p hp
    simp only [add_purchase, List.mem_append, List.mem_singleton] at hp
    rcases hp with hp | rfl
    · exact hInv p hp
    · show _ = derive_status (milestoneGet _)
      have hfun : ∀ k, milestoneGet
          { id := newId, project_id := projId, supplier_id := suppId,
            item_description := descr, category := cat,
            amount_excl_vat := amt, vat_percent := vat, payment_terms := terms,
            rfq_sent_date := rfq.map month_text_date,
            quote_received_date := quote.map month_text_date,
            requisition_requested_date := req.map month_text_date,
            order_sent_date := order.map month_text_date,
            delivered_date := delivered.map month_text_date,
            invoice_signed_date := invSigned.map month_text_date,
            receipting_sent_date := recpt.map month_text_date,
            status := derive_status (fun k' =>
              if k' = "rfq_sent_date" then rfq.map month_text_date
              else if k' = "quote_received_date" then quote.map month_text_date
              else if k' = "requisition_requested_date" then req.map month_text_date
              else if k' = "order_sent_date" then order.map month_text_date
              else if k' = "delivered_date" then delivered.map month_text_date
              else if k' = "invoice_signed_date" then invSigned.map month_text_date
              else if k' = "receipting_sent_date" then recpt.map month_text_date
              else none),
            created_at := month_text_date today } k =
          (fun k' =>
              if k' = "rfq_sent_date" then rfq.map month_text_date
              else if k' = "quote_received_date" then quote.map month_text_date
              else if k' = "requisition_requested_date" then req.map month_text_date
              else if k' = "order_sent_date" then order.map month_text_date
              else if k' = "delivered_date" then delivered.map month_text_date
              else if k' = "invoice_signed_date" then invSigned.map month_text_date
              else if k' = "receipting_sent_date" then recpt.map month_text_date
              else none) k := fun k => rfl
      rw [funext hfun]
  · intro table pid col dt hcol huniq hInv p hp
    rw [update_stage_date_fst] at hp
    simp only [List.mem_map] at hp
    obtain ⟨q, hq, hfq⟩ := hp
    by_cases hqid : q.id = pid
    · rw [if_pos hqid] at hfq
      subst hfq
      show _ = derive_status (milestoneGet _)
      have hst : ({ setCol q col (some (month_text_date dt)) with
          status := (update_stage_date table pid col dt).2 }).status =
          (update_stage_date table pid col dt).2 := rfl
      have hmg : milestoneGet { setCol q col (some (month_text_date dt)) with
          status := (update_stage_date table pid col dt).2 } =
          milestoneGet (setCol q col (some (month_text_date dt))) := rfl
      rw [hst, hmg, update_stage_date_snd]
      have hdict : get_purchase_dict table pid = milestoneGet q :=
        get_purchase_dict_of_uniq huniq hq hqid
      have hfun : milestoneGet (setCol q col (some (month_text_date dt))) =
          (fun k => if k = col then some (month_text_date dt)
            else get_purchase_dict table pid k) := by
        funext k
        rw [milestoneGet_setCol q col _ hcol k, hdict]
      rw [hfun]
    · rw [if_neg hqid] at hfq
      subst hfq
      exact hInv q hq

/-- C5. On a table with unique ids containing the purchase, a stage
update changes exactly the named milestone column and the status column
of that row, leaves every other column of that row and every other row
unchanged, and returns the newly derived status. -/
theorem update_stage_date_frame (table : List Purchase) (pid : Nat)
    (col : String) (dt : PyDate) (p0 : Purchase)
    (hcol : col ∈ MILESTONE_COLS)
    (huniq : table.Pairwise (fun a b => a.id ≠ b.id))
    (hmem : p0 ∈ table) (hid : p0.id = pid) :
    (update_stage_date table pid col dt).2 =
      derive_status (fun k => if k = col then some (month_text_date dt)
        else milestoneGet p0 k) ∧
    List.Forall₂ (fun p q =>
        (p.id ≠ pid → q = p) ∧
        (p.id = pid →
          frameFields q = frameFields p ∧
          q.status = (update_stage_date table pid col dt).2 ∧
          milestoneGet q col = some (month_text_date dt) ∧
          ∀ k, k ≠ col → milestoneGet q k = milestoneGet p k))
      table (update_stage_date table pid col dt).1 := by
  have hdict : get_purchase_dict table pid = milestoneGet p0 :=
    get_purchase_dict_of_uniq huniq hmem hid
  constructor
  · rw [update_stage_date_snd, hdict]
  · rw [update_stage_date_fst]
    rw [List.forall₂_map_right_iff, List.forall₂_same]
    intro p hp
    by_cases hpid : p.id = pid
    · refine ⟨fun h => absurd hpid h, fun _ => ?_⟩
      rw [if_pos hpid]
      have hmg : milestoneGet { setCol p col (some (month_text_date dt)) with
          status := (update_stage_date table pid col dt).2 } =
          milestoneGet (setCol p col (some (month_text_date dt))) := rfl
      refine ⟨?_, rfl, ?_, ?_⟩
      · have hff : frameFields { setCol p col (some (month_text_date dt)) with
            status := (update_stage_date table pid col dt).2 } =
            frameFields (setCol p col (some (month_text_date dt))) := rfl
        rw [hff, frameFields_setCol]
      · rw [hmg, milestoneGet_setCol p col _ hcol col, if_pos rfl]
      · intro k hk
        rw [hmg, milestoneGet_setCol p col _ hcol k, if_neg hk]
    · exact ⟨fun _ => if_neg hpid, fun h => absurd h hpid⟩

/-- C8. Updating a stage date for a purchase id absent from the table
leaves the table unchanged, yet still returns a label: the label of the
milestone column being set, derived from that single new date alone. -/
theorem update_stage_date_missing (table : List Purchase) (pid : Nat)
    (col : String) (dt : PyDate)
    (hcol : col ∈ MILESTONE_COLS)
    (habs : ∀ p ∈ table, p.id ≠ pid) :
    (update_stage_date table pid col dt).1 = table ∧
    (update_stage_date table pid col dt).2 =
      derive_status (fun k => if k = col then some (month_text_date dt)
        else none) ∧
    (update_stage_date table pid col dt).2 = labelOf col := by
  have hfind : table.find? (fun p => p.id == pid) = none :=
    List.find?_eq_none.mpr (fun p hp => by simp [habs p hp])
  have hdict : get_purchase_dict table pid = fun _ => none := by
    simp only [get_purchase_dict, hfind]
  have hsingle : (update_stage_date table pid col dt).2 =
      derive_status (fun k => if k = col then some (month_text_date dt)
        else none) := by
    rw [update_stage_date_snd, hdict]
  refine ⟨?_, hsingle, ?_⟩
  · rw [update_stage_date_fst]
    refine (List.map_congr_left ?_).trans (List.map_id table)
    intro p hp
    rw [if_neg (habs p hp)]
    rfl
  · rw [hsingle]
    have hp : present (some (month_text_date dt)) = true := by
      simp [present, month_text_date_ne_empty dt]
    have hq : present none = false := rfl
    simp only [MILESTONE_COLS, STATUS_ORDER, List.map, List.mem_cons,
      List.not_mem_nil, or_false] at hcol
    rcases hcol with rfl | rfl | rfl | rfl | rfl | rfl | rfl <;>
      simp [derive_status, STATUS_ORDER, labelOf, hp, hq]
/-- Witness for C4: after setting the quote date on the concrete table,
the updated row still satisfies the status invariant. -/
theorem status_invariant_preserved_witness : statusInv pEx2 :=
  status_invariant_preserved.2 [pEx] 1 "quote_received_date" dEx
    (by decide) (by decide)
    (by intro p hp
        rw [List.mem_singleton] at hp
        subst hp
        unfold statusInv
        decide)
    pEx2 (by decide)

/-- Witness for C5: the concrete stage update returns the newly derived
status label. -/
theorem update_stage_date_frame_witness :
    (update_stage_date [pEx] 1 "quote_received_date" dEx).2 =
      "Quote Received" :=
  ((update_stage_date_frame [pEx] 1 "quote_received_date" dEx pEx
      (by decide) (by decide) (by decide) rfl).1).trans (by decide)

/-- Witness for C8: a stage update for the absent purchase id 99 leaves
the table unchanged and returns the label of the column being set. -/
theorem update_stage_date_missing_witness :
    (update_stage_date [pEx] 99 "delivered_date" dEx).1 = [pEx] ∧
    (update_stage_date [pEx] 99 "delivered_date" dEx).2 =
      labelOf "delivered_date" :=
  ⟨(update_stage_date_missing [pEx] 99 "delivered_date" dEx
      (by decide) (by decide)).1,
   (update_stage_date_missing [pEx] 99 "delivered_date" dEx
      (by decide) (by decide)).2.2⟩

theorem le_foldl_max (l : List Nat) (a : Nat) : a ≤ l.foldl max a := by
  induction l generalizing a with
  | nil => exact Nat.le_refl a
  | cons x xs ih => exact le_trans (Nat.le_max_left a x) (ih (max a x))

theorem mem_le_foldl_max (l : List Nat) (a x : Nat) (hx : x ∈ l) :
    x ≤ l.foldl max a := by
  induction l generalizing a with
  | nil => cases hx
  | cons y ys ih =>
    rcases List.mem_cons.mp hx with rfl | hx'
    · exact le_trans (Nat.le_max_right a x) (le_foldl_max ys (max a x))
    · exact ih (max a y) hx'

theorem foldl_max_mem_or (l : List Nat) (a : Nat) :
    l.foldl max a = a ∨ l.foldl max a ∈ l := by
  induction l generalizing a with
  | nil => exact Or.inl rfl
  | cons x xs ih =>
    rcases ih (max a x) with h | h
    · rcases max_choice a x with hm | hm
      · exact Or.inl (by simpa [hm] using h)
      · refine Or.inr ?_
        rw [show (x :: xs).foldl max a = xs.foldl max (max a x) from rfl, h, hm]
        exact List.mem_cons_self x xs
    · exact Or.inr (List.mem_cons_of_mem x h)

theorem foldl_max_zero_mem (l : List Nat) (hl : l ≠ []) : l.foldl max 0 ∈ l := by
  rcases foldl_max_mem_or l 0 with h | h
  · cases l with
    | nil => exact absurd rfl hl
    | cons x xs =>
      have hx : x ≤ (x :: xs).foldl max 0 :=
        mem_le_foldl_max (x :: xs) 0 x (List.mem_cons_self x xs)
      rw [h] at hx
      have hx0 : x = 0 := Nat.le_zero.mp hx
      rw [h, ← hx0]
      exact List.mem_cons_self x xs
  · exact h

/-- C3. `next_version` is one more than the maximum stored version for
the exact (purchase id, document type) pair: it exceeds every stored
matching version, is 1 when no matching document exists, and otherwise
equals some matching document's version plus one. -/
theorem next_version_spec (docs : List Doc) (pid : Nat) (dtype : String) :
    (∀ d ∈ docs, d.purchase_id = pid → d.doc_type = dtype →
      d.version < next_version docs pid dtype) ∧
    (docs.filter (fun d => d.purchase_id == pid && d.doc_type == dtype) = [] →
      next_version docs pid dtype = 1) ∧
    (docs.filter (fun d => d.purchase_id == pid && d.doc_type == dtype) ≠ [] →
      ∃ d, d ∈ docs ∧ d.purchase_id = pid ∧ d.doc_type = dtype ∧
        next_version docs pid dtype = d.version + 1) := by
  refine ⟨?_, ?_, ?_⟩
  · intro d hd h1 h2
    have hdf : d ∈ docs.filter
        (fun d => d.purchase_id == pid && d.doc_type == dtype) :=
      List.mem_filter.mpr ⟨hd, by simp [h1, h2]⟩
    have hdv := List.mem_map_of_mem (fun d => d.version) hdf
    have hle := mem_le_foldl_max _ 0 d.version hdv
    unfold next_version
    omega
  · intro h
    unfold next_version
    rw [h]
    rfl
  · intro h
    have hmap : ((docs.filter
        (fun d => d.purchase_id == pid && d.doc_type == dtype)).map
        (fun d => d.version)) ≠ [] := by
      simpa using h
    have hmem := foldl_max_zero_mem _ hmap
    simp only [List.mem_map] at hmem
    obtain ⟨d, hdf, hdv⟩ := hmem
    have hd := List.mem_filter.mp hdf
    have hcond := hd.2
    simp only [Bool.and_eq_true, beq_iff_eq] at hcond
    refine ⟨d, hd.1, hcond.1, hcond.2, ?_⟩
    unfold next_version
    rw [hdv]

/-- Witness for C3: versions {1,2,3} give next version 4, and an empty
table gives 1. -/
theorem next_version_spec_witness :
    next_version [docA, docB, docC] 7 "Quote" = 4 ∧
    docC.version < next_version [docA, docB, docC] 7 "Quote" ∧
    next_version ([] : List Doc) 7 "Quote" = 1 :=
  ⟨by decide,
   (next_version_spec [docA, docB, docC] 7 "Quote").1 docC (by decide)
     (by decide) (by decide),
   (next_version_spec [] 7 "Quote").2.1 (by decide)⟩

/-- C2. After the save-document operation, exactly one document among
those sharing the (purchase id, document type) pair has the current
flag, and it is the just-inserted one (fresh id hypothesis: the
AUTOINCREMENT id of the insert does not collide with a stored id). -/
theorem record_document_unique_current (docs : List Doc) (pid : Nat)
    (dtype : String) (newId : Nat) (fname fpath today : String)
    (hfresh : ∀ d ∈ docs, d.id ≠ newId) :
    (record_document docs pid dtype newId fname fpath today).filter
        (fun d => d.purchase_id == pid && d.doc_type == dtype &&
          d.is_current) =
      [{ id := newId, purchase_id := pid, doc_type := dtype,
         filename := fname, saved_path := fpath, uploaded_at := today,
         version := next_version docs pid dtype, is_current := true }] := by
  simp only [record_document]
  rw [List.map_append, List.filter_append]
  have hold : ((docs.map fun d =>
      if d.purchase_id = pid ∧ d.doc_type = dtype ∧ d.id ≠ newId
      then { d with is_current := false } else d).filter
      (fun d => d.purchase_id == pid && d.doc_type == dtype &&
        d.is_current)) = [] := by
    rw [List.filter_eq_nil_iff]
    intro d hd
    simp only [List.mem_map] at hd
    obtain ⟨e, he, rfl⟩ := hd
    by_cases hm : e.purchase_id = pid ∧ e.doc_type = dtype
    · rw [if_pos ⟨hm.1, hm.2, hfresh e he⟩]
      simp
    · rw [if_neg (fun hc => hm ⟨hc.1, hc.2.1⟩)]
      simp only [Bool.and_eq_true, beq_iff_eq]
      rintro ⟨⟨hc1, hc2⟩, _⟩
      exact hm ⟨hc1, hc2⟩
  rw [hold, List.nil_append]
  simp

/-- C9. The demotion UPDATE filters on both purchase id and document
type: every stored document of a different purchase or different type is
left entirely unchanged, in its position, by the save-document
operation. -/
theorem record_document_other_frame (docs : List Doc) (pid : Nat)
    (dtype : String) (newId : Nat) (fname fpath today : String) :
    (record_document docs pid dtype newId fname fpath today).length =
      docs.length + 1 ∧
    ∀ i : Fin docs.length,
      ((docs.get i).purchase_id ≠ pid ∨ (docs.get i).doc_type ≠ dtype) →
      (record_document docs pid dtype newId fname fpath today)[(i : Nat)]? =
        some (docs.get i) := by
  constructor
  · simp [record_document]
  · intro i hne
    simp only [record_document]
    rw [List.getElem?_map,
      List.getElem?_append_left (by simpa using i.isLt),
      List.getElem?_eq_getElem i.isLt]
    simp only [Option.map_some']
    have hget : docs[(i : Nat)] = docs.get i := rfl
    rw [hget, if_neg]
    rintro ⟨hc1, hc2, _⟩
    rcases hne with hne | hne
    · exact hne hc1
    · exact hne hc2

/-- Witness for C2: saving a fourth Quote document for purchase 7 leaves
exactly the new document current among (7, Quote). -/
theorem record_document_unique_current_witness :
    (record_document [docA, docB, docC, docOther] 7 "Quote" 9 "q4.pdf"
        "p9" "t").filter
        (fun d => d.purchase_id == 7 && d.doc_type == "Quote" &&
          d.is_current) =
      [{ id := 9, purchase_id := 7, doc_type := "Quote",
         filename := "q4.pdf", saved_path := "p9", uploaded_at := "t",
         version := next_version [docA, docB, docC, docOther] 7 "Quote",
         is_current := true }] :=
  record_document_unique_current [docA, docB, docC, docOther] 7 "Quote" 9
    "q4.pdf" "p9" "t" (by decide)

/-- Witness for C9: a document of another purchase survives the
save-document operation unchanged. -/
theorem record_document_other_frame_witness :
    (record_document [docOther] 7 "Quote" 9 "q.pdf" "p" "t")[(0 : Nat)]? =
      some docOther :=
  (record_document_other_frame [docOther] 7 "Quote" 9 "q.pdf" "p" "t").2
    ⟨0, by decide⟩ (by decide)

theorem splitext_append (s : String) :
    (splitext s).1 ++ (splitext s).2 = s := by
  unfold splitext
  cases h : splitextIdx s.data with
  | none => exact String.append_empty s
  | some d =>
    dsimp only
    by_cases hc : (s.data.take d).any (fun c => c ≠ '.') = true
    · rw [if_pos hc]
      show String.mk (s.data.take d) ++ String.mk (s.data.drop d) = s
      have hmk : String.mk (s.data.take d) ++ String.mk (s.data.drop d) =
          String.mk (s.data.take d ++ s.data.drop d) := rfl
      rw [hmk, List.take_append_drop]
    · rw [if_neg hc]
      exact String.append_empty s

theorem splitext_length (s : String) :
    (splitext s).1.length + (splitext s).2.length = s.length := by
  have h := congrArg String.length (splitext_append s)
  rwa [String.length_append] at h

theorem length_lt_collide_rename (fname : String) (i : Nat) :
    fname.length < (collide_rename fname i).length := by
  have h := splitext_length fname
  have h1 : ("_" : String).length = 1 := rfl
  simp only [collide_rename, String.length_append, h1]
  omega

theorem filter_length_mono {α : Type} (l : List α) (p q : α → Bool)
    (himp : ∀ x, q x = true → p x = true) :
    (l.filter q).length ≤ (l.filter p).length := by
  induction l with
  | nil => exact Nat.le_refl 0
  | cons x xs ih =>
    by_cases hq : q x = true
    · rw [List.filter_cons_of_pos hq, List.filter_cons_of_pos (himp x hq)]
      simpa using ih
    · rw [List.filter_cons_of_neg hq]
      by_cases hp : p x = true
      · rw [List.filter_cons_of_pos hp]
        exact le_trans ih (Nat.le_succ _)
      · rw [List.filter_cons_of_neg hp]
        exact ih

theorem filter_length_lt {α : Type} (l : List α) (p q : α → Bool)
    (himp : ∀ x, q x = true → p x = true) (a : α) (ha : a ∈ l)
    (hpa : p a = true) (hqa : ¬ q a = true) :
    (l.filter q).length < (l.filter p).length := by
  induction l with
  | nil => cases ha
  | cons x xs ih =>
    rcases List.mem_cons.mp ha with rfl | ha'
    · rw [List.filter_cons_of_neg hqa, List.filter_cons_of_pos hpa]
      exact Nat.lt_succ_of_le (filter_length_mono xs p q himp)
    · by_cases hq : q x = true
      · rw [List.filter_cons_of_pos hq, List.filter_cons_of_pos (himp x hq)]
        simpa using ih ha'
      · rw [List.filter_cons_of_neg hq]
        by_cases hp : p x = true
        · rw [List.filter_cons_of_pos hp]
          exact Nat.lt_succ_of_lt (ih ha')
        · rw [List.filter_cons_of_neg hp]
          exact ih ha'

theorem save_file_loop_terminates (fuel : Nat) (existing : List String)
    (fname : String) (i : Nat)
    (h : (existing.filter (fun x => fname.length ≤ x.length)).length < fuel) :
    ∃ r, save_file_loop fuel existing fname i = some r ∧ r ∉ existing := by
  induction fuel generalizing fname i with
  | zero => omega
  | succ fuel ih =>
    by_cases hmem : fname ∈ existing
    · have hdec := filter_length_lt existing
        (fun x => decide (fname.length ≤ x.length))
        (fun x => decide ((collide_rename fname i).length ≤ x.length))
        (fun x hx => by
          simp only [decide_eq_true_eq] at hx ⊢
          exact le_trans (Nat.le_of_lt (length_lt_collide_rename fname i)) hx)
        fname hmem (by simp)
        (by simp only [decide_eq_true_eq]
            exact Nat.not_le.mpr (length_lt_collide_rename fname i))
      obtain ⟨r, hr, hnr⟩ := ih (collide_rename fname i) (i + 1) (by omega)
      refine ⟨r, ?_, hnr⟩
      simp only [save_file_loop, if_pos hmem]
      exact hr
    · refine ⟨fname, ?_, hmem⟩
      simp only [save_file_loop, if_neg hmem]

/-- C6. The collision-retry loop of `save_file` terminates within
`existing.length + 1` iterations (each retry strictly lengthens the
candidate name, so candidates never repeat), and the filename it returns
is not among the names already present in the destination folder. -/
theorem save_file_no_collision (existing : List String) (filename : String)
    (v : Nat) :
    ∃ r, save_file existing filename v = some r ∧ r ∉ existing := by
  unfold save_file
  exact save_file_loop_terminates (existing.length + 1) existing
    (versioned_name filename v) 1
    (Nat.lt_succ_of_le (List.length_filter_le _ existing))

theorem pairwise_rid_eq {l : List InvRow}
    (h : l.Pairwise (fun a b => a.rid ≠ b.rid)) {a b : InvRow}
    (ha : a ∈ l) (hb : b ∈ l) (hab : a.rid = b.rid) : a = b := by
  induction l with
  | nil => cases ha
  | cons x xs ih =>
    have hx := List.pairwise_cons.mp h
    rcases List.mem_cons.mp ha with rfl | ha' <;>
      rcases List.mem_cons.mp hb with rfl | hb'
    · rfl
    · exact absurd hab (hx.1 b hb')
    · exact absurd hab.symm (hx.1 a ha')
    · exact ih hx.2 ha' hb'

theorem applyUpd_eq_self (updates : List InvRow) (m : InvRow)
    (h : ∀ u ∈ updates, u.rid = m.rid → u = m) :
    applyUpd updates m = m := by
  induction updates with
  | nil => rfl
  | cons u us ih =>
    have hu0 : (if u.rid = m.rid then u else m) = m := by
      by_cases hu : u.rid = m.rid
      · rw [if_pos hu]
        exact h u (List.mem_cons_self u us) hu
      · exact if_neg hu
    show List.foldl (fun acc u => if u.rid = m.rid then u else acc)
      (if u.rid = m.rid then u else m) us = m
    rw [hu0]
    exact ih (fun w hw hww => h w (List.mem_cons_of_mem u hw) hww)

/-- C7. Reconciling a well-formed master against itself (no edits:
edited view = displayed-before = master) returns the master unchanged —
in particular unchanged up to row ordering.  Well-formed means the §3
master invariants hold: every row carries an identity, identities are
unique, no row is delete-flagged, and rows are already normalized. -/
theorem reconcile_idempotent (gen : Nat → String) (master : List InvRow)
    (hid : ∀ r ∈ master, r.rid ≠ "")
    (hdel : ∀ r ∈ master, r.deleteFlag = false)
    (huniq : master.Pairwise (fun a b => a.rid ≠ b.rid))
    (hnorm : ∀ r ∈ master, normalizeRow r = r) :
    reconcile gen master master master = master := by
  simp only [reconcile]
  have hdelids : master.filter (fun r => r.deleteFlag && r.rid != "") = [] := by
    rw [List.filter_eq_nil_iff]
    intro r hr
    simp [hdel r hr]
  rw [hdelids]
  simp only [List.map_nil]
  have hafterdel :
      master.filter (fun m => !(([] : List String).contains m.rid)) = master := by
    rw [List.filter_eq_self]
    intro r _
    simp
  rw [hafterdel]
  have hupd : master.filter (fun r => r.rid != "" && !r.deleteFlag) = master := by
    rw [List.filter_eq_self]
    intro r hr
    simp [hdel r hr, hid r hr]
  rw [hupd]
  have hmap1 : master.map (applyUpd master) = master := by
    refine (List.map_congr_left ?_).trans (List.map_id master)
    intro m hm
    exact applyUpd_eq_self master m
      (fun u hu huu => pairwise_rid_eq huniq hu hm huu)
  rw [hmap1]
  have hcand : master.filter (fun r => r.rid == "") = [] := by
    rw [List.filter_eq_nil_iff]
    intro r hr
    simp [hid r hr]
  rw [hcand]
  simp only [List.filter_nil, assignIds, List.append_nil]
  refine (List.map_congr_left ?_).trans (List.map_id master)
  intro r hr
  exact hnorm r hr

/-- Witness for C7: reconciling a concrete two-row master against itself
returns it unchanged. -/
theorem reconcile_idempotent_witness :
    reconcile (fun n => "gen-" ++ toString n) [rowEx1, rowEx2]
      [rowEx1, rowEx2] [rowEx1, rowEx2] = [rowEx1, rowEx2] :=
  reconcile_idempotent (fun n => "gen-" ++ toString n) [rowEx1, rowEx2]
    (by decide) (by decide) (by decide)
    (by intro r hr
        fin_cases hr <;> decide)

end OppWorks
